import Mathlib

/-!
Verification of the numerical pricing engines of the Pricing_Exotic_Options
repository: the closed-form Black-Scholes pricers, the Monte Carlo path
simulator and payoff functions, and the Crank-Nicolson barrier PDE solver.
Floating-point arithmetic is modelled over the reals; the pseudo-random
normal draws consumed by the Monte Carlo routines are passed explicitly as
inputs, and `scipy.stats.norm.cdf` is modelled by the Gaussian integral.
-/

open MeasureTheory ProbabilityTheory

/-- Standard normal cumulative distribution function, embedding
`scipy.stats.norm.cdf`: the integral of the standard Gaussian density over
`(-infinity, x]`. -/
noncomputable def normCdf (x : ℝ) : ℝ :=
  ∫ t in Set.Iic x, gaussianPDFReal 0 1 t

/-- The Black-Scholes auxiliary term
`d1 = (ln(S/K) + (r + 0.5*sigma^2)*T) / (sigma*sqrt(T))`. -/
noncomputable def bs_d1 (S K T r sigma : ℝ) : ℝ :=
  (Real.log (S / K) + (r + 0.5 * sigma ^ 2) * T) / (sigma * Real.sqrt T)

/-- The Black-Scholes auxiliary term `d2 = d1 - sigma*sqrt(T)`. -/
noncomputable def bs_d2 (S K T r sigma : ℝ) : ℝ :=
  bs_d1 S K T r sigma - sigma * Real.sqrt T

/-- The analytic pricer `black_scholes_price(S, K, T, r, sigma, option_type)`
from the report appendix (`src/unnamed/part_000`).  A Python `ValueError` is
modelled as `Except.error`; the degenerate-input branch returns `0.0` before
`option_type` is ever inspected. -/
noncomputable def black_scholes_price (S K T r sigma : ℝ)
    (optionType : String) : Except String ℝ :=
  if T ≤ 0 ∨ sigma ≤ 0 ∨ S ≤ 0 ∨ K ≤ 0 then Except.ok 0
  else
    let d1 := bs_d1 S K T r sigma
    let d2 := bs_d2 S K T r sigma
    if optionType = "call" then
      Except.ok (S * normCdf d1 - K * Real.exp (-(r * T)) * normCdf d2)
    else if optionType = "put" then
      Except.ok (K * Real.exp (-(r * T)) * normCdf (-d2) - S * normCdf (-d1))
    else
      Except.error ("option_type must be call or put")

/-- The duplicate analytic pricer `bsm_price(S, K, r, sigma, T, option_type)`
from the notebooks (`src/unnamed/part_002`): at `T == 0` it returns the
intrinsic value `max(0, S-K)` or `max(0, K-S)` instead of `0.0`. -/
noncomputable def bsm_price (S K r sigma T : ℝ) (optionType : String) : ℝ :=
  if T = 0 then
    max 0 (if optionType = "call" then S - K else K - S)
  else
    let d1 := bs_d1 S K T r sigma
    let d2 := bs_d2 S K T r sigma
    if optionType = "call" then
      S * normCdf d1 - K * Real.exp (-(r * T)) * normCdf d2
    else
      K * Real.exp (-(r * T)) * normCdf (-d2) - S * normCdf (-d1)

/-- Cumulative sums of a list, embedding `np.cumsum`:
`cumsum [a, b, c] = [a, a+b, a+b+c]`. -/
def cumsum : List ℝ → List ℝ
  | [] => []
  | x :: xs => x :: (cumsum xs).map (fun y => x + y)

/-- Sample mean, embedding `ndarray.mean()`; the empty mean is `0 / 0 = 0`. -/
noncomputable def mean (xs : List ℝ) : ℝ := xs.sum / xs.length

/-- Sample standard deviation with one delta degree of freedom, embedding
`ndarray.std(ddof=1)`. -/
noncomputable def sampleStd (xs : List ℝ) : ℝ :=
  Real.sqrt ((xs.map (fun x => (x - mean xs) ^ 2)).sum / (xs.length - 1))

/-- The vectorised path simulator `simulate_paths(S0, r, sigma, T, M, N)` of
`src/unnamed/part_003`; the `N x M` matrix `Z` of standard normal draws is an
explicit input.  The result has one column per step (shape `(N, M)`): there
is no initial spot column. -/
noncomputable def simulate_paths (S0 r sigma T : ℝ) (M : ℕ)
    (Z : List (List ℝ)) : List (List ℝ) :=
  let dt := T / M
  let log_inc := Z.map (List.map (fun z =>
    (r - 0.5 * sigma ^ 2) * dt + sigma * Real.sqrt dt * z))
  let log_paths := log_inc.map cumsum
  log_paths.map (List.map (fun x => S0 * Real.exp x))

/-- Vanilla call payoff `vanilla_call(ST)` on a terminal price
(`src/unnamed/part_003`), with the strike as an explicit parameter. -/
noncomputable def vanilla_call (K ST : ℝ) : ℝ := max (ST - K) 0

/-- Down-and-out call payoffs `down_and_out(paths)` (`src/unnamed/part_003`):
zero on paths that ever reach the barrier `B_d` or below, vanilla on the
last column otherwise. -/
noncomputable def down_and_out (K B_d : ℝ) (paths : List (List ℝ)) : List ℝ :=
  paths.map (fun p =>
    if ∃ s ∈ p, s ≤ B_d then 0 else vanilla_call K (p.getLastD 0))

/-- Up-and-out call payoffs `up_and_out(paths)` (`src/unnamed/part_003`). -/
noncomputable def up_and_out (K B_u : ℝ) (paths : List (List ℝ)) : List ℝ :=
  paths.map (fun p =>
    if ∃ s ∈ p, s ≥ B_u then 0 else vanilla_call K (p.getLastD 0))

/-- Down-and-in call payoffs `down_and_in(paths)` (`src/unnamed/part_003`). -/
noncomputable def down_and_in (K B_d : ℝ) (paths : List (List ℝ)) : List ℝ :=
  paths.map (fun p =>
    if ∃ s ∈ p, s ≤ B_d then vanilla_call K (p.getLastD 0) else 0)

/-- Up-and-in call payoffs `up_and_in(paths)` (`src/unnamed/part_003`). -/
noncomputable def up_and_in (K B_u : ℝ) (paths : List (List ℝ)) : List ℝ :=
  paths.map (fun p =>
    if ∃ s ∈ p, s ≥ B_u then vanilla_call K (p.getLastD 0) else 0)

/-- The Monte Carlo pricer `mc_price(payoff_fn, N)` of `src/unnamed/part_003`:
simulate paths, apply the payoff, discount by `exp(-r*T)`, return the sample
mean and the half-width `1.96 * std(ddof=1) / sqrt(N)`. -/
noncomputable def mc_price (S0 r sigma T : ℝ) (M N : ℕ) (Z : List (List ℝ))
    (payoff_fn : List (List ℝ) → List ℝ) : ℝ × ℝ :=
  let paths := simulate_paths S0 r sigma T M Z
  let payoff := (payoff_fn paths).map (fun x => Real.exp (-(r * T)) * x)
  (mean payoff, 1.96 * (sampleStd payoff / Real.sqrt N))

/-- The Monte Carlo European pricer `mc_european_price` of the report
appendix (`src/unnamed/part_000`), with the normal draws `Z` explicit. -/
noncomputable def mc_european_price (S0 K r sigma T : ℝ) (N_paths N_steps : ℕ)
    (is_call : Bool) (Z : List (List ℝ)) : ℝ × ℝ :=
  let dt := T / N_steps
  let increments := Z.map (List.map (fun z =>
    (r - 0.5 * sigma ^ 2) * dt + sigma * Real.sqrt dt * z))
  let logS := increments.map cumsum
  let ST := logS.map (fun row => S0 * Real.exp (row.getLastD 0))
  let payoff := ST.map (fun s =>
    if is_call then max (s - K) 0 else max (K - s) 0)
  let discounted := payoff.map (fun x => Real.exp (-(r * T)) * x)
  (mean discounted, 1.96 * (sampleStd discounted / Real.sqrt N_paths))

/-- Modelled from the spec: the arithmetic-Asian payoff used by
`mc_arithmetic_asian_price` in `pricing/monte_carlo.py`, a module imported by
the notebooks but absent from the sources.  Per the spec it is
`max(mean(S) - K, 0)` for a call and `max(K - mean(S), 0)` for a put. -/
noncomputable def asian_arith_payoff (K : ℝ) (is_call : Bool)
    (path : List ℝ) : ℝ :=
  if is_call then max (mean path - K) 0 else max (K - mean path) 0

/-- The analytic Reiner-Rubinstein down-and-out call pricer
`down_and_out_call_rr` of the PDE-vs-MC comparison notebook: returns `0.0`
immediately when `B >= S0` (already knocked out). -/
noncomputable def down_and_out_call_rr (S0 K r sigma T B : ℝ) : ℝ :=
  if B ≥ S0 then 0
  else
    let lam := (r + 0.5 * sigma ^ 2) / sigma ^ 2
    let x1 := Real.log (S0 / K) / (sigma * Real.sqrt T) +
      lam * sigma * Real.sqrt T
    let y1 := Real.log (B ^ 2 / (S0 * K)) / (sigma * Real.sqrt T) +
      lam * sigma * Real.sqrt T
    let A := S0 * normCdf x1 -
      K * Real.exp (-(r * T)) * normCdf (x1 - sigma * Real.sqrt T)
    let B_term := S0 * (B / S0) ^ (2 * lam) * normCdf y1
    let C_term := K * Real.exp (-(r * T)) * (B / S0) ^ (2 * lam - 2) *
      normCdf (y1 - sigma * Real.sqrt T)
    A - B_term + C_term

/-- Crank-Nicolson lower coefficient `a[i] = 0.25*dt*(sigma^2*i^2 - r*i)`. -/
noncomputable def cn_a (r sigma dt : ℝ) (i : ℕ) : ℝ :=
  0.25 * dt * (sigma ^ 2 * (i : ℝ) ^ 2 - r * i)

/-- Crank-Nicolson diagonal coefficient `b[i] = -0.5*dt*(sigma^2*i^2 + r)`. -/
noncomputable def cn_b (r sigma dt : ℝ) (i : ℕ) : ℝ :=
  -0.5 * dt * (sigma ^ 2 * (i : ℝ) ^ 2 + r)

/-- Crank-Nicolson upper coefficient `c[i] = 0.25*dt*(sigma^2*i^2 + r*i)`. -/
noncomputable def cn_c (r sigma dt : ℝ) (i : ℕ) : ℝ :=
  0.25 * dt * (sigma ^ 2 * (i : ℝ) ^ 2 + r * i)

/-- Forward-elimination sweep of the Thomas algorithm over rows
`(lower, diag, upper, rhs)`, carrying the previous modified upper
coefficient and rhs. -/
noncomputable def thomas_forward :
    ℝ → ℝ → List (ℝ × ℝ × ℝ × ℝ) → List (ℝ × ℝ)
  | _, _, [] => []
  | cp, dp, (lo, di, up, rh) :: rest =>
    let m := di - lo * cp
    let c2 := up / m
    let d2 := (rh - lo * dp) / m
    (c2, d2) :: thomas_forward c2 d2 rest

/-- Back-substitution of the Thomas algorithm, consuming the reversed
forward sweep. -/
noncomputable def thomas_back : List (ℝ × ℝ) → ℝ → List ℝ
  | [], _ => []
  | (c2, d2) :: rest, xnext =>
    let x := d2 - c2 * xnext
    x :: thomas_back rest x

/-- Tridiagonal linear solve, embedding
`scipy.linalg.solve_banded((1, 1), A, rhs)` (and `spsolve` on a tridiagonal
CSC matrix) via the Thomas algorithm; each row is `(lower, diag, upper, rhs)`
and the first lower / last upper entries are ignored by construction. -/
noncomputable def solve_banded (rows : List (ℝ × ℝ × ℝ × ℝ)) : List ℝ :=
  (thomas_back (thomas_forward 0 0 rows).reverse 0).reverse

/-- The tridiagonal rows assembled by `crank_nicolson_barrier`
(`1_Barrier_Option_CrankNicolson.ipynb`).  The left-hand side row for
interior node `i` is `(-a[i], 1-b[i], -c[i])`; the right-hand side
reproduces the notebook's banded-layout products
`Bm[0]*V[2:] + Bm[1]*V[1:-1] + Bm[2]*V[:-2]` (so the off-diagonal
coefficients are the shifted `c[i-1]` and `a[i+1]`, zero-padded at the
ends), with the far-boundary correction `rhs[-1] -= c[-1]*bc_val`. -/
noncomputable def cn_barrier_rows (r sigma : ℝ) (N_S : ℕ) (dt bc_val : ℝ)
    (V : ℕ → ℝ) : List (ℝ × ℝ × ℝ × ℝ) :=
  (List.range (N_S - 1)).map (fun k =>
    let i := k + 1
    let base := (if k = 0 then 0 else cn_c r sigma dt (i - 1)) * V (i + 1) +
      (1 + cn_b r sigma dt i) * V i +
      (if k = N_S - 2 then 0 else cn_a r sigma dt (i + 1)) * V (i - 1)
    let rh := if k = N_S - 2 then
        base - cn_c r sigma dt (N_S - 1) * bc_val
      else base
    (-(cn_a r sigma dt i), 1 - cn_b r sigma dt i, -(cn_c r sigma dt i), rh))

/-- Terminal condition of `crank_nicolson_barrier`: the call payoff
`max(S - K, 0)` with nodes strictly below the barrier zeroed
(`V[S < B] = 0`). -/
noncomputable def cn_barrier_terminal (K B dS : ℝ) : ℕ → ℝ :=
  fun i => if (i : ℝ) * dS < B then 0 else max ((i : ℝ) * dS - K) 0

/-- One backward time step of `crank_nicolson_barrier` with loop index `n`:
form the right-hand side, solve the tridiagonal system into the interior
nodes, then re-impose the barrier (`V[S < B] = 0`), the lower boundary
(`V[0] = 0`) and the far boundary (`V[-1] = bc_val`), in the order of the
source's assignments. -/
noncomputable def cn_barrier_step (K r sigma T B Smax : ℝ) (N_S N_t : ℕ)
    (n : ℕ) (V : ℕ → ℝ) : ℕ → ℝ :=
  let dS := Smax / N_S
  let dt := T / N_t
  let t := T - n * dt
  let bc_val := Smax - K * Real.exp (-(r * (t - dt)))
  let sol := solve_banded (cn_barrier_rows r sigma N_S dt bc_val V)
  fun i =>
    if i = N_S then bc_val
    else if i = 0 then 0
    else if (i : ℝ) * dS < B then 0
    else sol.getD (i - 1) 0

/-- The value array of `crank_nicolson_barrier` after `n` backward time
steps: index `0` is the terminal payoff layer, index `n+1` applies step `n`
to layer `n`. -/
noncomputable def crank_nicolson_barrier_V (K r sigma T B Smax : ℝ)
    (N_S N_t : ℕ) : ℕ → ℕ → ℝ
  | 0 => cn_barrier_terminal K B (Smax / N_S)
  | n + 1 => cn_barrier_step K r sigma T B Smax N_S N_t n
      (crank_nicolson_barrier_V K r sigma T B Smax N_S N_t n)

/-- The discounted payoffs of `mc_european_price` as the spec states them:
each path's terminal price is `S0 * exp(sum of the log-increments)`, its
vanilla payoff is multiplied by `exp(-r*T)`. -/
noncomputable def discounted_payoffs_european (S0 K r sigma T : ℝ)
    (N_steps : ℕ) (is_call : Bool) (Z : List (List ℝ)) : List ℝ :=
  Z.map (fun zr =>
    let ST := S0 * Real.exp ((zr.map (fun z =>
      (r - 0.5 * sigma ^ 2) * (T / N_steps) +
        sigma * Real.sqrt (T / N_steps) * z)).sum)
    Real.exp (-(r * T)) * (if is_call then max (ST - K) 0 else max (K - ST) 0))

/-- The standard Gaussian density is even. -/
lemma gaussianPDFReal_std_neg (t : ℝ) :
    gaussianPDFReal 0 1 (-t) = gaussianPDFReal 0 1 t := by
  simp [gaussianPDFReal, neg_sq]

/-- Complement rule for the standard normal CDF: `Phi(x) + Phi(-x) = 1`. -/
lemma normCdf_add_neg (x : ℝ) : normCdf x + normCdf (-x) = 1 := by
  have hint : Integrable (gaussianPDFReal 0 1) := integrable_gaussianPDFReal 0 1
  have heven : (fun t => gaussianPDFReal 0 1 (-t)) = gaussianPDFReal 0 1 :=
    funext gaussianPDFReal_std_neg
  have h1 : normCdf (-x) = ∫ t in Set.Ioi x, gaussianPDFReal 0 1 t := by
    rw [normCdf, ← integral_comp_neg_Ioi, heven]
  have h2 : normCdf x + normCdf (-x) = ∫ t, gaussianPDFReal 0 1 t := by
    rw [h1, normCdf, ← Set.compl_Iic (a := x)]
    exact integral_add_compl measurableSet_Iic hint
  rw [h2, integral_gaussianPDFReal_eq_one 0 one_ne_zero]

/-- Value of the non-degenerate call branch of `black_scholes_price`. -/
lemma black_scholes_price_call_eq (S K T r sigma : ℝ)
    (hdeg : ¬(T ≤ 0 ∨ sigma ≤ 0 ∨ S ≤ 0 ∨ K ≤ 0)) :
    black_scholes_price S K T r sigma "call" =
      Except.ok (S * normCdf (bs_d1 S K T r sigma) -
        K * Real.exp (-(r * T)) * normCdf (bs_d2 S K T r sigma)) := by
  simp [black_scholes_price, hdeg]

/-- Value of the non-degenerate put branch of `black_scholes_price`. -/
lemma black_scholes_price_put_eq (S K T r sigma : ℝ)
    (hdeg : ¬(T ≤ 0 ∨ sigma ≤ 0 ∨ S ≤ 0 ∨ K ≤ 0)) :
    black_scholes_price S K T r sigma "put" =
      Except.ok (K * Real.exp (-(r * T)) * normCdf (-(bs_d2 S K T r sigma)) -
        S * normCdf (-(bs_d1 S K T r sigma))) := by
  simp [black_scholes_price, hdeg]

/-- C1 (amended): for every degenerate input (`T <= 0` or `sigma <= 0` or
`S <= 0` or `K <= 0`), the report's analytic pricer `black_scholes_price`
returns exactly `0.0` and raises no exception, regardless of the option-type
string; the duplicate notebook pricer `bsm_price` instead returns the
intrinsic value at `T = 0`. -/
theorem black_scholes_degenerate_returns_zero (S K T r sigma : ℝ)
    (optionType : String) (h : T ≤ 0 ∨ sigma ≤ 0 ∨ S ≤ 0 ∨ K ≤ 0) :
    black_scholes_price S K T r sigma optionType = Except.ok 0 := by
  simp [black_scholes_price, h]

/-- Witness for C1: concrete degenerate input with an invalid option type. -/
theorem black_scholes_degenerate_returns_zero_w :
    black_scholes_price 5 7 (-1) 0 0 "neither" = Except.ok 0 :=
  black_scholes_degenerate_returns_zero 5 7 (-1) 0 0 "neither" (by norm_num)

/-- C1 counterexample: the notebook analytic pricer `bsm_price`, also cited
by the claim, returns the intrinsic value `10`, not `0.0`, at the degenerate
maturity `T = 0` with `S = 110`, `K = 100`. -/
theorem bsm_price_degenerate_not_zero :
    bsm_price 110 100 0 0 0 "call" = 10 ∧
      bsm_price 110 100 0 0 0 "call" ≠ 0 := by
  norm_num [bsm_price]

/-- C2 (amended): for every spot and strike, the notebook analytic pricer
`bsm_price` at maturity `T = 0` returns exactly the intrinsic value
`max(S - K, 0)` for a call and `max(K - S, 0)` for a put; the report's
pricer `black_scholes_price` instead returns `0.0` at `T = 0`. -/
theorem bsm_price_zero_maturity_intrinsic (S K r sigma : ℝ) :
    bsm_price S K r sigma 0 "call" = max (S - K) 0 ∧
      bsm_price S K r sigma 0 "put" = max (K - S) 0 := by
  constructor <;> simp [bsm_price, max_comm]

/-- C2 counterexample: the report's analytic pricer `black_scholes_price`,
also cited by the claim, returns `0.0` rather than the intrinsic value `10`
at `T = 0`, `S = 110`, `K = 100`. -/
theorem black_scholes_zero_maturity_not_intrinsic :
    black_scholes_price 110 100 0 0 0 "call" = Except.ok 0 ∧
      max (110 - 100 : ℝ) 0 ≠ 0 := by
  constructor
  · simp [black_scholes_price]
  · norm_num

/-- C9: `black_scholes_price` yields a `ValueError` if and only if all of
`S`, `K`, `sigma`, `T` are strictly positive and the option type is neither
"call" nor "put"; whenever any of them is non-positive it returns `0.0`
without validating the option type. -/
theorem black_scholes_error_characterisation (S K T r sigma : ℝ)
    (ot : String) :
    ((∃ e, black_scholes_price S K T r sigma ot = Except.error e) ↔
      (0 < S ∧ 0 < K ∧ 0 < sigma ∧ 0 < T ∧ ot ≠ "call" ∧ ot ≠ "put")) ∧
    ((T ≤ 0 ∨ sigma ≤ 0 ∨ S ≤ 0 ∨ K ≤ 0) →
      black_scholes_price S K T r sigma ot = Except.ok 0) := by
  by_cases hdeg : T ≤ 0 ∨ sigma ≤ 0 ∨ S ≤ 0 ∨ K ≤ 0
  · have hnot : ¬(0 < S ∧ 0 < K ∧ 0 < sigma ∧ 0 < T ∧
        ot ≠ "call" ∧ ot ≠ "put") := by
      rintro ⟨hS, hK, hs, hT, -, -⟩
      rcases hdeg with h | h | h | h <;> linarith
    constructor
    · simp [black_scholes_price, hdeg, hnot]
    · intro _
      simp [black_scholes_price, hdeg]
  · have hpos := hdeg
    push_neg at hpos
    obtain ⟨hT, hs, hS, hK⟩ := hpos
    refine ⟨?_, fun h => absurd h hdeg⟩
    by_cases hc : ot = "call"
    · simp [black_scholes_price, hdeg, hc]
    · by_cases hp : ot = "put"
      · simp [black_scholes_price, hdeg, hc, hp]
      · simp only [black_scholes_price, hdeg, if_false, hc, hp, ite_false]
        constructor
        · intro _
          exact ⟨hS, hK, hs, hT, hc, hp⟩
        · intro _
          exact ⟨"option_type must be call or put", by simp⟩

/-- Witness for C9: a degenerate input returns `ok 0` even with an invalid
option-type string. -/
theorem black_scholes_error_characterisation_w :
    black_scholes_price 3 4 0 1 2 "swaption" = Except.ok 0 :=
  (black_scholes_error_characterisation 3 4 0 1 2 "swaption").2 (by norm_num)

/-- C4: put-call parity holds exactly for the analytic pricer on every
valid parameter set: `call - put = S - K*exp(-r*T)` (hence in particular to
within any floating-point tolerance). -/
theorem black_scholes_put_call_parity (S K T r sigma : ℝ)
    (hS : 0 < S) (hK : 0 < K) (hsig : 0 < sigma) (hT : 0 < T) :
    ∃ c p, black_scholes_price S K T r sigma "call" = Except.ok c ∧
      black_scholes_price S K T r sigma "put" = Except.ok p ∧
      c - p = S - K * Real.exp (-(r * T)) := by
  have hdeg : ¬(T ≤ 0 ∨ sigma ≤ 0 ∨ S ≤ 0 ∨ K ≤ 0) := by
    push_neg
    exact ⟨hT, hsig, hS, hK⟩
  refine ⟨_, _, black_scholes_price_call_eq S K T r sigma hdeg,
    black_scholes_price_put_eq S K T r sigma hdeg, ?_⟩
  have h1 := normCdf_add_neg (bs_d1 S K T r sigma)
  have h2 := normCdf_add_neg (bs_d2 S K T r sigma)
  linear_combination S * h1 - K * Real.exp (-(r * T)) * h2

/-- Witness for C4 at `S=1, K=1, T=1, r=0, sigma=1`. -/
theorem black_scholes_put_call_parity_w :
    ∃ c p, black_scholes_price 1 1 1 0 1 "call" = Except.ok c ∧
      black_scholes_price 1 1 1 0 1 "put" = Except.ok p ∧
      c - p = 1 - 1 * Real.exp (-(0 * 1)) :=
  black_scholes_put_call_parity 1 1 1 0 1 (by norm_num) (by norm_num)
    (by norm_num) (by norm_num)

/-- Adding a constant inside a list commutes with `getLastD`. -/
lemma getLastD_map_add (l : List ℝ) (x d : ℝ) :
    (l.map (fun y => x + y)).getLastD (x + d) = x + l.getLastD d := by
  induction l generalizing d with
  | nil => rfl
  | cons a t ih =>
    simp only [List.map_cons, List.getLastD_cons]
    exact ih a

/-- The last cumulative sum is the total sum. -/
lemma cumsum_getLastD (xs : List ℝ) : (cumsum xs).getLastD 0 = xs.sum := by
  induction xs with
  | nil => rfl
  | cons x t ih =>
    have h := getLastD_map_add (cumsum t) x 0
    simp only [cumsum, List.getLastD_cons, add_zero] at h ⊢
    rw [h, ih, List.sum_cons]

/-- `cumsum` preserves the length of its input. -/
lemma cumsum_length (xs : List ℝ) : (cumsum xs).length = xs.length := by
  induction xs with
  | nil => rfl
  | cons x t ih => simp [cumsum, ih]

/-- The `j`-th cumulative sum is the sum of the first `j + 1` entries. -/
lemma cumsum_eq_map_range (l : List ℝ) :
    cumsum l = (List.range l.length).map (fun j => (l.take (j + 1)).sum) := by
  induction l with
  | nil => rfl
  | cons x t ih =>
    simp only [cumsum, ih, List.length_cons, List.range_succ_eq_map,
      List.map_cons, List.map_map]
    refine List.cons_eq_cons.mpr ⟨by simp, ?_⟩
    apply List.map_congr_left
    intro j _
    simp [List.take_succ_cons, Function.comp]

/-- The mean of a list of non-negative reals is non-negative. -/
lemma mean_nonneg (xs : List ℝ) (h : ∀ x ∈ xs, 0 ≤ x) : 0 ≤ mean xs :=
  div_nonneg (List.sum_nonneg h) (Nat.cast_nonneg _)

/-- The mean is additive over pointwise sums of two maps of one list. -/
lemma mean_map_add {α : Type} (l : List α) (f g : α → ℝ) :
    mean (l.map fun a => f a + g a) = mean (l.map f) + mean (l.map g) := by
  unfold mean
  rw [List.sum_map_add]
  simp [div_add_div_same]

/-- The discounted-payoff list computed inside `mc_european_price` agrees
with the spec-side `discounted_payoffs_european`. -/
lemma mc_european_discounted_list (S0 K r sigma T : ℝ) (N_steps : ℕ)
    (is_call : Bool) (Z : List (List ℝ)) :
    ((((Z.map (List.map (fun z => (r - 0.5 * sigma ^ 2) * (T / N_steps) +
          sigma * Real.sqrt (T / N_steps) * z))).map cumsum).map
        (fun row => S0 * Real.exp (row.getLastD 0))).map
      (fun s => if is_call then max (s - K) 0 else max (K - s) 0)).map
        (fun x => Real.exp (-(r * T)) * x) =
      discounted_payoffs_european S0 K r sigma T N_steps is_call Z := by
  unfold discounted_payoffs_european
  simp only [List.map_map]
  apply List.map_congr_left
  intro zr _
  simp only [Function.comp]
  rw [cumsum_getLastD]

/-- C5: every Monte Carlo pricing call discounts each path's payoff by
`exp(-r*T)`, returns the sample mean of the discounted payoffs as the price,
and returns `1.96 * std(ddof=1) / sqrt(number of paths)` as the confidence
half-width — for both `mc_european_price` and `mc_price`. -/
theorem mc_price_is_mean_and_ci (S0 K r sigma T : ℝ) (N_paths N_steps : ℕ)
    (is_call : Bool) (Z : List (List ℝ)) (M N : ℕ)
    (payoff_fn : List (List ℝ) → List ℝ) :
    mc_european_price S0 K r sigma T N_paths N_steps is_call Z =
      (mean (discounted_payoffs_european S0 K r sigma T N_steps is_call Z),
        1.96 * (sampleStd
          (discounted_payoffs_european S0 K r sigma T N_steps is_call Z) /
            Real.sqrt N_paths)) ∧
    mc_price S0 r sigma T M N Z payoff_fn =
      (mean ((payoff_fn (simulate_paths S0 r sigma T M Z)).map
          (fun x => Real.exp (-(r * T)) * x)),
        1.96 * (sampleStd ((payoff_fn (simulate_paths S0 r sigma T M Z)).map
          (fun x => Real.exp (-(r * T)) * x)) / Real.sqrt N)) := by
  constructor
  · simp only [mc_european_price]
    rw [mc_european_discounted_list]
  · rfl

/-- C6 (amended): `simulate_paths` returns one row per path whose length is
the number of steps `M` (not `M + 1`): entry `j` of a row is `S0` times the
exponential of the cumulative sum of the first `j + 1` log-increments
`(r - sigma^2/2)*dt + sigma*sqrt(dt)*Z`, i.e. accumulation happens in log
space and there is no initial spot column. -/
theorem simulate_paths_shape_and_log (S0 r sigma T : ℝ) (M : ℕ)
    (Z : List (List ℝ)) (hZ : ∀ row ∈ Z, row.length = M) :
    simulate_paths S0 r sigma T M Z =
      Z.map (fun zr => (List.range M).map (fun j =>
        S0 * Real.exp (((zr.take (j + 1)).map (fun z =>
          (r - 0.5 * sigma ^ 2) * (T / M) +
            sigma * Real.sqrt (T / M) * z)).sum))) ∧
    (simulate_paths S0 r sigma T M Z).length = Z.length ∧
    ∀ row ∈ simulate_paths S0 r sigma T M Z, row.length = M := by
  have hmain : simulate_paths S0 r sigma T M Z =
      Z.map (fun zr => (List.range M).map (fun j =>
        S0 * Real.exp (((zr.take (j + 1)).map (fun z =>
          (r - 0.5 * sigma ^ 2) * (T / M) +
            sigma * Real.sqrt (T / M) * z)).sum))) := by
    simp only [simulate_paths, List.map_map]
    apply List.map_congr_left
    intro zr hzr
    simp only [Function.comp]
    rw [cumsum_eq_map_range, List.length_map, hZ zr hzr, List.map_map]
    apply List.map_congr_left
    intro j _
    simp only [Function.comp, ← List.map_take]
  refine ⟨hmain, by simp [simulate_paths], ?_⟩
  intro row hrow
  rw [hmain] at hrow
  obtain ⟨zr, hzr, rfl⟩ := List.mem_map.mp hrow
  simp

/-- Witness for C6 at `M = 1`, `Z = [ [0] ]`. -/
theorem simulate_paths_shape_and_log_w :
    simulate_paths 100 0 0 1 1 ([ [0] ]) =
      [ [0] ].map (fun zr => (List.range 1).map (fun j =>
        (100 : ℝ) * Real.exp (((zr.take (j + 1)).map (fun z =>
          ((0 : ℝ) - 0.5 * 0 ^ 2) * (1 / (1 : ℕ)) +
            0 * Real.sqrt (1 / (1 : ℕ)) * z)).sum))) ∧
    (simulate_paths 100 0 0 1 1 ([ [0] ])).length = [ [(0 : ℝ)] ].length ∧
    ∀ row ∈ simulate_paths 100 0 0 1 1 ([ [0] ]), row.length = 1 :=
  simulate_paths_shape_and_log 100 0 0 1 1 ([ [0] ]) (by simp)

/-- C6 counterexample: with `num_steps = 2` the simulator's rows have length
`2`, not `2 + 1`; there is no initial spot column. -/
theorem simulate_paths_shape_counterexample :
    (simulate_paths 100 0 0 1 2 ([ [0, 0] ])).map List.length = [2] ∧
      (2 : ℕ) ≠ 2 + 1 := by
  constructor
  · simp [simulate_paths, cumsum]
  · decide

/-- First component of `mc_price` is the mean of the discounted payoffs. -/
lemma mc_price_fst (S0 r sigma T : ℝ) (M N : ℕ) (Z : List (List ℝ))
    (payoff_fn : List (List ℝ) → List ℝ) :
    (mc_price S0 r sigma T M N Z payoff_fn).1 =
      mean ((payoff_fn (simulate_paths S0 r sigma T M Z)).map
        (fun x => Real.exp (-(r * T)) * x)) := rfl

/-- Pointwise in/out parity for the discounted down-barrier payoffs. -/
lemma discounted_parity_down (K B_d c : ℝ) (p : List ℝ) :
    c * (if ∃ s ∈ p, s ≤ B_d then 0 else vanilla_call K (p.getLastD 0)) +
      c * (if ∃ s ∈ p, s ≤ B_d then vanilla_call K (p.getLastD 0) else 0) =
      c * vanilla_call K (p.getLastD 0) := by
  by_cases hc : ∃ s ∈ p, s ≤ B_d <;> simp [hc]

/-- Pointwise in/out parity for the discounted up-barrier payoffs. -/
lemma discounted_parity_up (K B_u c : ℝ) (p : List ℝ) :
    c * (if ∃ s ∈ p, s ≥ B_u then 0 else vanilla_call K (p.getLastD 0)) +
      c * (if ∃ s ∈ p, s ≥ B_u then vanilla_call K (p.getLastD 0) else 0) =
      c * vanilla_call K (p.getLastD 0) := by
  by_cases hc : ∃ s ∈ p, s ≥ B_u <;> simp [hc]

/-- C8: for every path batch, the down-and-out payoff plus the down-and-in
payoff equals the vanilla call payoff on the terminal price, likewise for
the up pair, and consequently on the same simulated batch the knock-out
Monte Carlo price plus the knock-in price equals the vanilla price. -/
theorem barrier_in_out_parity (K B_d B_u S0 r sigma T : ℝ)
    (paths : List (List ℝ)) (M N : ℕ) (Z : List (List ℝ)) :
    List.zipWith (· + ·) (down_and_out K B_d paths)
        (down_and_in K B_d paths) =
      paths.map (fun p => vanilla_call K (p.getLastD 0)) ∧
    List.zipWith (· + ·) (up_and_out K B_u paths) (up_and_in K B_u paths) =
      paths.map (fun p => vanilla_call K (p.getLastD 0)) ∧
    (mc_price S0 r sigma T M N Z (down_and_out K B_d)).1 +
        (mc_price S0 r sigma T M N Z (down_and_in K B_d)).1 =
      (mc_price S0 r sigma T M N Z
        (fun ps => ps.map (fun p => vanilla_call K (p.getLastD 0)))).1 ∧
    (mc_price S0 r sigma T M N Z (up_and_out K B_u)).1 +
        (mc_price S0 r sigma T M N Z (up_and_in K B_u)).1 =
      (mc_price S0 r sigma T M N Z
        (fun ps => ps.map (fun p => vanilla_call K (p.getLastD 0)))).1 := by
  refine ⟨?_, ?_, ?_, ?_⟩
  · unfold down_and_out down_and_in
    induction paths with
    | nil => rfl
    | cons p t ih =>
      simp only [List.map_cons, List.zipWith_cons_cons, ih, List.cons.injEq,
        and_true]
      by_cases hc : ∃ s ∈ p, s ≤ B_d <;> simp [hc]
  · unfold up_and_out up_and_in
    induction paths with
    | nil => rfl
    | cons p t ih =>
      simp only [List.map_cons, List.zipWith_cons_cons, ih, List.cons.injEq,
        and_true]
      by_cases hc : ∃ s ∈ p, s ≥ B_u <;> simp [hc]
  · rw [mc_price_fst, mc_price_fst, mc_price_fst]
    unfold down_and_out down_and_in
    simp only [List.map_map]
    rw [← mean_map_add]
    congr 1
    apply List.map_congr_left
    intro p _
    simp only [Function.comp]
    exact discounted_parity_down K B_d _ p
  · rw [mc_price_fst, mc_price_fst, mc_price_fst]
    unfold up_and_out up_and_in
    simp only [List.map_map]
    rw [← mean_map_add]
    congr 1
    apply List.map_congr_left
    intro p _
    simp only [Function.comp]
    exact discounted_parity_up K B_u _ p

/-- C10: every payoff function of the Monte Carlo engine (vanilla,
arithmetic-Asian, and all four barrier variants) is pointwise non-negative,
and therefore every Monte Carlo price — the mean of payoffs discounted by
the positive factor `exp(-r*T)` — is non-negative. -/
theorem payoffs_and_mc_prices_nonneg (K B_d B_u S0 r sigma T : ℝ)
    (paths : List (List ℝ)) (pp : List ℝ) (is_call : Bool)
    (M N N_paths N_steps : ℕ) (Z : List (List ℝ))
    (payoff_fn : List (List ℝ) → List ℝ)
    (hfn : ∀ P x, x ∈ payoff_fn P → 0 ≤ x) :
    (∀ s, 0 ≤ vanilla_call K s) ∧
    0 ≤ asian_arith_payoff K is_call pp ∧
    (∀ x ∈ down_and_out K B_d paths, 0 ≤ x) ∧
    (∀ x ∈ up_and_out K B_u paths, 0 ≤ x) ∧
    (∀ x ∈ down_and_in K B_d paths, 0 ≤ x) ∧
    (∀ x ∈ up_and_in K B_u paths, 0 ≤ x) ∧
    0 ≤ (mc_price S0 r sigma T M N Z payoff_fn).1 ∧
    0 ≤ (mc_european_price S0 K r sigma T N_paths N_steps is_call Z).1 := by
  have hvan : ∀ s, 0 ≤ vanilla_call K s := fun s => le_max_right _ _
  refine ⟨hvan, ?_, ?_, ?_, ?_, ?_, ?_, ?_⟩
  · unfold asian_arith_payoff
    split <;> exact le_max_right _ _
  · intro x hx
    obtain ⟨p, -, rfl⟩ := List.mem_map.mp hx
    split
    · exact le_refl 0
    · exact hvan _
  · intro x hx
    obtain ⟨p, -, rfl⟩ := List.mem_map.mp hx
    split
    · exact le_refl 0
    · exact hvan _
  · intro x hx
    obtain ⟨p, -, rfl⟩ := List.mem_map.mp hx
    split
    · exact hvan _
    · exact le_refl 0
  · intro x hx
    obtain ⟨p, -, rfl⟩ := List.mem_map.mp hx
    split
    · exact hvan _
    · exact le_refl 0
  · rw [mc_price_fst]
    apply mean_nonneg
    intro x hx
    obtain ⟨y, hy, rfl⟩ := List.mem_map.mp hx
    exact mul_nonneg (Real.exp_pos _).le (hfn _ y hy)
  · have h1 : (mc_european_price S0 K r sigma T N_paths N_steps is_call Z).1 =
        mean (discounted_payoffs_european S0 K r sigma T N_steps is_call Z) := by
      simp only [mc_european_price]
      rw [mc_european_discounted_list]
    rw [h1]
    apply mean_nonneg
    intro x hx
    unfold discounted_payoffs_european at hx
    obtain ⟨zr, -, rfl⟩ := List.mem_map.mp hx
    refine mul_nonneg (Real.exp_pos _).le ?_
    split <;> exact le_max_right _ _

/-- Witness for C10 with the vanilla-on-last-column payoff as the supplied
payoff function. -/
theorem payoffs_and_mc_prices_nonneg_w :
    (∀ s, 0 ≤ vanilla_call 100 s) ∧
    0 ≤ asian_arith_payoff 100 true ([95, 105]) ∧
    (∀ x ∈ down_and_out 100 90 ([ [95, 105] ]), 0 ≤ x) ∧
    (∀ x ∈ up_and_out 100 110 ([ [95, 105] ]), 0 ≤ x) ∧
    (∀ x ∈ down_and_in 100 90 ([ [95, 105] ]), 0 ≤ x) ∧
    (∀ x ∈ up_and_in 100 110 ([ [95, 105] ]), 0 ≤ x) ∧
    0 ≤ (mc_price 100 (1/20) (1/5) 1 2 1 ([ [1, 1] ])
      (fun ps => ps.map (fun p => vanilla_call 100 (p.getLastD 0)))).1 ∧
    0 ≤ (mc_european_price 100 100 (1/20) (1/5) 1 1 2 true ([ [1, 1] ])).1 :=
  payoffs_and_mc_prices_nonneg 100 90 110 100 (1/20) (1/5) 1 ([ [95, 105] ])
    ([95, 105]) true 2 1 1 2 ([ [1, 1] ])
    (fun ps => ps.map (fun p => vanilla_call 100 (p.getLastD 0)))
    (fun P x hx => by
      obtain ⟨p, -, rfl⟩ := List.mem_map.mp hx
      exact le_max_right _ _)

/-- C3 (amended): the analytic Reiner-Rubinstein pricer
`down_and_out_call_rr` returns exactly `0.0` for every parameter set with
`B >= S0`, without raising; the Monte Carlo payoff `down_and_out` performs
no such short-circuit and can price a `B >= S0` option strictly positive,
because simulated paths do not contain the time-0 spot. -/
theorem down_and_out_call_rr_immediate_knockout (S0 K r sigma T B : ℝ)
    (h : B ≥ S0) : down_and_out_call_rr S0 K r sigma T B = 0 := by
  simp [down_and_out_call_rr, h]

/-- Witness for C3 at `B = 110 >= S0 = 100`. -/
theorem down_and_out_call_rr_immediate_knockout_w :
    down_and_out_call_rr 100 100 1 1 1 110 = 0 :=
  down_and_out_call_rr_immediate_knockout 100 100 1 1 1 110 (by norm_num)

/-- C3 counterexample: with `B = S0 = 100` the Monte Carlo down-and-out
price over a single one-step path (normal draw `Z = 1`, `r = 0`,
`sigma = 1`, `T = 1`) is `100*exp(1/2) - 100 > 0`, not `0.0`: the simulated
path starts after one step and never touches the barrier. -/
theorem down_and_out_mc_price_positive :
    (mc_price 100 0 1 1 1 1 ([ [1] ]) (down_and_out 100 100)).1 ≠ 0 := by
  have hP : simulate_paths 100 0 1 1 1 ([ [1] ]) =
      [ [100 * Real.exp (1 / 2)] ] := by
    simp [simulate_paths, cumsum]
    norm_num
  have hv : (100 : ℝ) < 100 * Real.exp (1 / 2) := by
    nlinarith [ (by rw [Real.one_lt_exp_iff]; norm_num :
      (1 : ℝ) < Real.exp (1 / 2)) ]
  have hdo : down_and_out 100 100 ([ [100 * Real.exp (1 / 2)] ]) =
      [100 * Real.exp (1 / 2) - 100] := by
    simp [down_and_out, vanilla_call, not_le.mpr hv]
  rw [mc_price_fst, hP, hdo]
  simp [mean, Real.exp_zero]
  linarith

/-- C7 (amended): after every backward time step of
`crank_nicolson_barrier`, the value array satisfies `V_i = 0` at every node
strictly below the barrier level (`i*dS < B`), `V_0 = 0` at the lower
boundary, and `V_{N_S} = S_max - K*exp(-r*(T - (n+1)*dt))` at the far
boundary; the node at the barrier level itself (`jB = floor(B/dS)` when `B`
lies on the grid) holds the tridiagonal solve output and need not vanish,
because the solve overwrites the interior after the barrier was zeroed. -/
theorem crank_nicolson_barrier_step_invariant (K r sigma T B Smax : ℝ)
    (N_S N_t : ℕ) (hN : 0 < N_S) (n : ℕ) :
    (∀ i, i ≠ N_S → (i : ℝ) * (Smax / N_S) < B →
      crank_nicolson_barrier_V K r sigma T B Smax N_S N_t (n + 1) i = 0) ∧
    crank_nicolson_barrier_V K r sigma T B Smax N_S N_t (n + 1) 0 = 0 ∧
    crank_nicolson_barrier_V K r sigma T B Smax N_S N_t (n + 1) N_S =
      Smax - K * Real.exp (-(r * (T - n * (T / N_t) - T / N_t))) := by
  refine ⟨?_, ?_, ?_⟩
  · intro i hne hlt
    by_cases h0 : i = 0
    · subst h0
      simp [crank_nicolson_barrier_V, cn_barrier_step, hne]
    · simp [crank_nicolson_barrier_V, cn_barrier_step, hne, hlt, h0]
  · simp [crank_nicolson_barrier_V, cn_barrier_step, hN.ne]
  · simp only [crank_nicolson_barrier_V, cn_barrier_step, if_pos rfl]

/-- Witness for C7 at `K=1, r=0, sigma=1, T=1, B=2, Smax=4, N_S=4, N_t=1`,
after the first backward step. -/
theorem crank_nicolson_barrier_step_invariant_w :
    (∀ i : ℕ, i ≠ 4 → (i : ℝ) * ((4 : ℝ) / ((4 : ℕ) : ℝ)) < 2 →
      crank_nicolson_barrier_V 1 0 1 1 2 4 4 1 (0 + 1) i = 0) ∧
    crank_nicolson_barrier_V 1 0 1 1 2 4 4 1 (0 + 1) 0 = 0 ∧
    crank_nicolson_barrier_V 1 0 1 1 2 4 4 1 (0 + 1) 4 =
      4 - 1 * Real.exp (-(0 * (1 - ((0 : ℕ) : ℝ) * ((1 : ℝ) / ((1 : ℕ) : ℝ)) -
        (1 : ℝ) / ((1 : ℕ) : ℝ)))) :=
  crank_nicolson_barrier_step_invariant 1 0 1 1 2 4 4 1 (by norm_num) 0

/-- C7 counterexample: with `K=1, r=0, sigma=1, T=1, Smax=4, N_S=4, N_t=1`
and the barrier `B=2` lying exactly on grid node `jB = floor(B/dS) = 2`,
the value at the barrier node after one backward time step is the
tridiagonal solve output `-81/80`, not `0`: the code zeroes only nodes with
`S < B`, and the solve overwrites the interior after the pre-step zeroing. -/
theorem crank_nicolson_barrier_nonzero_at_barrier_node :
    crank_nicolson_barrier_V 1 0 1 1 2 4 4 1 1 2 = -(81 / 80) ∧
      crank_nicolson_barrier_V 1 0 1 1 2 4 4 1 1 2 ≠ 0 := by
  have h : crank_nicolson_barrier_V 1 0 1 1 2 4 4 1 1 2 = -(81 / 80) := by
    norm_num [crank_nicolson_barrier_V, cn_barrier_step, cn_barrier_terminal,
      cn_barrier_rows, cn_a, cn_b, cn_c, solve_banded, thomas_forward,
      thomas_back, Real.exp_zero, max_def,
      show List.range 3 = [0, 1, 2] from rfl, List.getD]
  exact ⟨h, by rw [h]; norm_num⟩
